import Mathlib

/-!
Verification of the k8s-crd-mcp-server repository.

The Python sources are embedded shallowly: dictionaries become ordered
association lists `List (String × JValue)` (Python dicts preserve insertion
order and have unique keys), JSON-ish values become the inductive `JValue`,
and code paths that would raise an exception in Python are modelled with
`Option`/`Except` (`none`/`.error` marks the raising path).
-/

namespace K8sCrdMcp

/-- A JSON-like value, the shape of the dictionaries the server manipulates
(`crd_schema.to_dict()`, resource bodies, API responses). Numbers are
modelled as integers; no code path in the repository does arithmetic on
them. -/
inductive JValue where
  | null : JValue
  | bool : Bool → JValue
  | num : Int → JValue
  | str : String → JValue
  | arr : List JValue → JValue
  | obj : List (String × JValue) → JValue

mutual

/-- Decidable equality on `JValue` (written by hand: `deriving` cannot handle
the nested occurrence under `List`). -/
def JValue.decEq : (a b : JValue) → Decidable (a = b)
  | .null, .null => .isTrue rfl
  | .null, .bool _ => .isFalse nofun
  | .null, .num _ => .isFalse nofun
  | .null, .str _ => .isFalse nofun
  | .null, .arr _ => .isFalse nofun
  | .null, .obj _ => .isFalse nofun
  | .bool _, .null => .isFalse nofun
  | .bool a, .bool b =>
    if h : a = b then .isTrue (by rw [h]) else .isFalse (fun hh => h (by injection hh))
  | .bool _, .num _ => .isFalse nofun
  | .bool _, .str _ => .isFalse nofun
  | .bool _, .arr _ => .isFalse nofun
  | .bool _, .obj _ => .isFalse nofun
  | .num _, .null => .isFalse nofun
  | .num _, .bool _ => .isFalse nofun
  | .num a, .num b =>
    if h : a = b then .isTrue (by rw [h]) else .isFalse (fun hh => h (by injection hh))
  | .num _, .str _ => .isFalse nofun
  | .num _, .arr _ => .isFalse nofun
  | .num _, .obj _ => .isFalse nofun
  | .str _, .null => .isFalse nofun
  | .str _, .bool _ => .isFalse nofun
  | .str _, .num _ => .isFalse nofun
  | .str a, .str b =>
    if h : a = b then .isTrue (by rw [h]) else .isFalse (fun hh => h (by injection hh))
  | .str _, .arr _ => .isFalse nofun
  | .str _, .obj _ => .isFalse nofun
  | .arr _, .null => .isFalse nofun
  | .arr _, .bool _ => .isFalse nofun
  | .arr _, .num _ => .isFalse nofun
  | .arr _, .str _ => .isFalse nofun
  | .arr xs, .arr ys =>
    match JValue.decEqList xs ys with
    | .isTrue h => .isTrue (by rw [h])
    | .isFalse h => .isFalse (fun hh => h (by injection hh))
  | .arr _, .obj _ => .isFalse nofun
  | .obj _, .null => .isFalse nofun
  | .obj _, .bool _ => .isFalse nofun
  | .obj _, .num _ => .isFalse nofun
  | .obj _, .str _ => .isFalse nofun
  | .obj _, .arr _ => .isFalse nofun
  | .obj fs, .obj gs =>
    match JValue.decEqFields fs gs with
    | .isTrue h => .isTrue (by rw [h])
    | .isFalse h => .isFalse (fun hh => h (by injection hh))

/-- Decidable equality on lists of `JValue`. -/
def JValue.decEqList : (xs ys : List JValue) → Decidable (xs = ys)
  | [], [] => .isTrue rfl
  | [], _ :: _ => .isFalse nofun
  | _ :: _, [] => .isFalse nofun
  | x :: xs, y :: ys =>
    match JValue.decEq x y with
    | .isFalse h => .isFalse (fun hh => h (by injection hh))
    | .isTrue h1 =>
      match JValue.decEqList xs ys with
      | .isTrue h2 => .isTrue (by rw [h1, h2])
      | .isFalse h2 => .isFalse (fun hh => h2 (by injection hh))

/-- Decidable equality on association lists of `JValue`. -/
def JValue.decEqFields : (fs gs : List (String × JValue)) → Decidable (fs = gs)
  | [], [] => .isTrue rfl
  | [], _ :: _ => .isFalse nofun
  | _ :: _, [] => .isFalse nofun
  | (k1, v1) :: fs, (k2, v2) :: gs =>
    if hk : k1 = k2 then
      match JValue.decEq v1 v2 with
      | .isFalse h => .isFalse (fun hh => h (by injection hh with h1 _; injection h1))
      | .isTrue hv =>
        match JValue.decEqFields fs gs with
        | .isTrue h2 => .isTrue (by rw [hk, hv, h2])
        | .isFalse h2 => .isFalse (fun hh => h2 (by injection hh))
    else .isFalse (fun hh => hk (by injection hh with h1 _; injection h1))

end

instance : DecidableEq JValue := JValue.decEq

/-- Python truthiness (`bool(v)`) on the modelled values: `None`, `False`,
`0`, `""` and empty containers are falsy. -/
def truthy : JValue → Bool
  | .null => false
  | .bool b => b
  | .num n => n != 0
  | .str s => s != ""
  | .arr xs => !xs.isEmpty
  | .obj fs => !fs.isEmpty

/-- The fields of an object value; `[]` on non-objects (where the Python
source would raise `AttributeError` when calling `.items()`/`.keys()`). -/
def objFields : JValue → List (String × JValue)
  | .obj fs => fs
  | _ => []

/-- One version entry of `crd.spec.versions`: `name`, `served`, `storage`
and the `open_apiv3_schema` rendered as a dictionary. -/
structure CrdVersion where
  name : String
  served : Bool
  storage : Bool
  schema : JValue
deriving DecidableEq

/-- The parts of a CustomResourceDefinition object the server reads:
`metadata.name`, `spec.group`, `spec.names.kind`, `spec.names.plural`,
`spec.scope` and `spec.versions`. -/
structure Crd where
  name : String
  group : String
  kind : String
  plural : String
  scope : String
  versions : List CrdVersion
deriving DecidableEq

/-! ## server.py: policy resolution -/

/-- The full method set the server grants by default
(`['docs', 'list', 'get', 'create', 'update']`). -/
def allMethods : List String := ["docs", "list", "get", "create", "update"]

/-- `get_effective_methods` from `server.py`: resource policy first, then
group policy, then allow-all when both maps are empty, else the empty
list. -/
def getEffectiveMethods (crd_name crd_group : String)
    (allowed_crds allowed_groups : List (String × List String)) : List String :=
  match allowed_crds.lookup crd_name with
  | some ms => ms
  | none =>
    match allowed_groups.lookup crd_group with
    | some ms => ms
    | none =>
      if allowed_crds.isEmpty && allowed_groups.isEmpty then allMethods else []

/-! ## mcp_tools/utils.py: version resolution -/

/-- `get_preferred_version` from `mcp_tools/utils.py`. The Python loop keeps
the last served version with `storage = true` in `storage_version` and every
served version, in order, in `served_versions`; it then prefers the storage
version, then the first served version, then `crd.spec.versions[0]` (which
raises `IndexError` when the version list is empty, modelled as `none`). -/
def getPreferredVersion (crd : Crd) : Option String :=
  match ((crd.versions.filter (fun v => v.served)).filter (fun v => v.storage)).getLast? with
  | some sv => some sv.name
  | none =>
    match crd.versions.filter (fun v => v.served) with
    | w :: _ => some w.name
    | [] =>
      match crd.versions with
      | w :: _ => some w.name
      | [] => none

/-! ## mcp_tools/utils.py: filter_properties (the schema reducer) -/

/-- Python `list(filter(None, prop))` as applied to the `enum` value: keeps
the truthy entries of a list, in order. The source raises `TypeError` on a
non-iterable `enum` value; non-arrays are left unchanged here, outside the
domain the source is defined on. -/
def pyFilterTruthy : JValue → JValue
  | .arr xs => .arr (xs.filter truthy)
  | v => v

/-- Python `prop[:100]` as applied to the `description` value: truncates a
string (or a list) to its first 100 elements. The source raises `TypeError`
on unsliceable values; those are left unchanged here, outside the domain the
source is defined on. -/
def pyTrunc100 : JValue → JValue
  | .str s => .str (.mk (s.data.take 100))
  | .arr xs => .arr (xs.take 100)
  | v => v

/-- `objFields` never increases the size of a value. -/
theorem sizeOf_objFields_le (v : JValue) : sizeOf (objFields v) ≤ sizeOf v := by
  cases v <;> simp [objFields]

mutual

/-- `filter_properties` from `mcp_tools/utils.py`, on an object rendered as
an ordered association list. The source raises `AttributeError` on a
non-dict argument (`.items()`); non-objects are left unchanged here, outside
the domain the source is defined on. -/
def filterProperties (rp : List String) : JValue → JValue
  | .obj fs => .obj (mainFields rp fs ++ propsTail fs)
  | v => v
termination_by v => sizeOf v
decreasing_by all_goals (simp_wf; try omega)

/-- The main `for key, prop in properties.items()` loop of
`filter_properties`: each key yields at most one output entry, in input
order. -/
def mainFields (rp : List String) : List (String × JValue) → List (String × JValue)
  | [] => []
  | (k, v) :: rest =>
    (if k = "enum" ∧ v ≠ .null then [("enum", pyFilterTruthy v)]
     else if (k = "type" ∨ k = "description" ∨ k = "required" ∨ k = "items" ∨ k = "default")
         ∧ k ∉ rp ∧ v ≠ .null then
       if k = "items" then [("items", filterProperties [] v)]
       else if k = "description" then [("description", pyTrunc100 v)]
       else [(k, v)]
     else []) ++ mainFields rp rest
termination_by fs => sizeOf fs
decreasing_by all_goals (simp_wf; try omega)

/-- The trailing `if "properties" in properties and properties["properties"]
is not None` block of `filter_properties`: the first `"properties"` entry,
when present and non-null, contributes one final output entry whose
sub-properties are filtered recursively (dropping `hyperthreading`). -/
def propsTail : List (String × JValue) → List (String × JValue)
  | [] => []
  | (k, v) :: rest =>
    if k = "properties" then
      if v = .null then [] else [("properties", .obj (innerFields (objFields v)))]
    else propsTail rest
termination_by fs => sizeOf fs
decreasing_by all_goals (simp_wf; try omega); all_goals (have h := sizeOf_objFields_le v; omega)

/-- The `for key, prop in properties["properties"].items()` loop of
`filter_properties`: every sub-property except `hyperthreading` is filtered
recursively with the default `remove_props = []`. -/
def innerFields : List (String × JValue) → List (String × JValue)
  | [] => []
  | (k, v) :: rest =>
    (if k = "hyperthreading" then [] else [(k, filterProperties [] v)]) ++ innerFields rest
termination_by fs => sizeOf fs
decreasing_by all_goals (simp_wf; try omega)

end

/-! ## mcp_tools/list.py: the list closures -/

/-- `item['metadata']['name']` for one element of the `items` list; `none`
models the `KeyError`/`TypeError` the source raises when a field is
absent. -/
def itemName (it : JValue) : Option JValue :=
  ((objFields it).lookup "metadata").bind fun m => (objFields m).lookup "name"

/-- The shared tail of both list closures: `if 'items' not in crd_list:
return []` followed by the comprehension
`[item['metadata']['name'] for item in crd_list['items']]`. -/
def extractListResult (fields : List (String × JValue)) : Except String (List JValue) :=
  match fields.lookup "items" with
  | none => .ok []
  | some (.arr items) =>
    match items.mapM itemName with
    | some names => .ok names
    | none => .error "KeyError"
  | some _ => .error "TypeError"

/-- The closure produced by `get_cluster_list_function`, over the outcome of
the `list_cluster_custom_object` call. The call is not wrapped in
try/except, so an API error propagates to the caller. -/
def clusterListFunction (call : Except String (List (String × JValue))) :
    Except String (List JValue) :=
  match call with
  | .error e => .error e
  | .ok fields => extractListResult fields

/-- The closure produced by `get_namespaced_list_function`, over the outcome
of the `list_namespaced_custom_object` call. The call is wrapped in
try/except and any error degrades to an empty list. -/
def namespacedListFunction (call : Except String (List (String × JValue))) :
    Except String (List JValue) :=
  match call with
  | .error _ => .ok []
  | .ok fields => extractListResult fields

/-! ## mcp_tools/create.py and create_unstructured_object -/

/-- The two API endpoints `create_unstructured_object` can submit to. -/
inductive Endpoint where
  | namespacedCreate : JValue → Endpoint
  | clusterCreate : Endpoint
deriving DecidableEq

/-- The endpoint choice inside `create_unstructured_object`: namespaced when
`'namespace' in unstructured_object_body['metadata'].keys()` (with that
namespace), cluster-scoped otherwise. `none` models the `KeyError` on a body
without a `metadata` entry. -/
def createDispatch (bodyFields : List (String × JValue)) : Option Endpoint :=
  match bodyFields.lookup "metadata" with
  | none => none
  | some m =>
    match (objFields m).lookup "namespace" with
    | some ns => some (.namespacedCreate ns)
    | none => some .clusterCreate

/-- The body built by the closure from `get_namespaced_create_function
before it is passed to `create_unstructured_object`; `none` when version
resolution raises (empty version list). -/
def namespacedCreateBody (crd : Crd) (name ns : String)
    (kwargs : List (String × JValue)) : Option (List (String × JValue)) :=
  (getPreferredVersion crd).map fun version =>
    [("apiVersion", .str (crd.group ++ "/" ++ version)),
     ("kind", .str crd.kind),
     ("metadata", .obj [("name", .str name), ("namespace", .str ns)]),
     ("spec", .obj kwargs)]

/-! ## mcp_tools/get.py: slim and the get closure -/

/-- Remove the first entry with the given key: the effect of Python
`del d[k]` on a dict rendered as an ordered association list. -/
def eraseKey {α : Type} (k : String) : List (String × α) → List (String × α)
  | [] => []
  | (k2, v) :: rest => if k2 = k then rest else (k2, v) :: eraseKey k rest

/-- Replace the value of the first entry with the given key, keeping its
position: Python dict assignment to an existing key. -/
def setValueAt {α : Type} (k : String) (newV : α) : List (String × α) → List (String × α)
  | [] => []
  | (k2, v) :: rest => if k2 = k then (k2, newV) :: rest else (k2, v) :: setValueAt k newV rest

/-- Python dict assignment `d[k] = v`: updates an existing entry in place,
or appends a new entry at the end. -/
def dictSet {α : Type} (fs : List (String × α)) (k : String) (v : α) : List (String × α) :=
  if (fs.lookup k).isSome then setValueAt k v fs else fs ++ [(k, v)]

/-- `slim` from `mcp_tools/get.py`:
`del response["metadata"]["managedFields"]` then return the response.
`none` models the `KeyError`/`TypeError` raised when `metadata` is missing
or not a dict, or `managedFields` is absent from it. -/
def slim (responseFields : List (String × JValue)) : Option (List (String × JValue)) :=
  match responseFields.lookup "metadata" with
  | some (.obj ms) =>
    if (ms.lookup "managedFields").isSome then
      some (setValueAt "metadata" (.obj (eraseKey "managedFields" ms)) responseFields)
    else none
  | _ => none

/-- The closure produced by `get_namespaced_get_function`: fetch the
resource (abstracted as a function from namespace and name to the fields of
`res.to_dict()`) and return `slim` of the result. -/
def namespacedGetFunction (fetch : String → String → List (String × JValue))
    (ns name : String) : Option (List (String × JValue)) :=
  slim (fetch ns name)

/-! ## Tool registration: add_doc, add_list_tool, add_get_tool,
add_create_tool, add_update_tool -/

/-- The registration record of a `FunctionTool`: its `name`, `parameters`
and `description` arguments (the bound closures are modelled separately by
the `*Function` definitions above). -/
structure Tool where
  name : String
  parameters : JValue
  description : String
deriving DecidableEq

/-- Python `str.lower()` on the ASCII kind names the server handles,
character by character. -/
def pyLower (s : String) : String :=
  .mk (s.data.map Char.toLower)

/-- The schema-selection preamble shared by `add_doc`, `add_create_tool` and
`add_update_tool`: the schema of the preferred version (the loop with
`break`), falling back to `crd.spec.versions[0].schema`; `none` when version
resolution itself raises. -/
def crdSchemaFor (crd : Crd) : Option JValue :=
  (getPreferredVersion crd).bind fun pv =>
    match crd.versions.find? (fun v => v.name == pv) with
    | some v => some v.schema
    | none => (crd.versions.head?).map (fun v => v.schema)

/-- `crd_schema.properties['spec']`: `none` models the `KeyError` on a
schema without a `spec` property (or a null/absent `properties` table). -/
def specSchemaOf (schema : JValue) : Option JValue :=
  ((objFields schema).lookup "properties").bind fun props =>
    (objFields props).lookup "spec"

/-- `crd_schema.description` as a JSON value (`null` when the attribute is
unset). -/
def descriptionOf (schema : JValue) : JValue :=
  ((objFields schema).lookup "description").getD .null

/-- The dictionary returned by the docs tool closure in `add_doc`: the
reduced spec schema with the top-level `description` overwritten by the
CRD schema's own description. -/
def docPayload (crd : Crd) : Option JValue :=
  (crdSchemaFor crd).bind fun cs =>
    (specSchemaOf cs).map fun spec =>
      .obj (dictSet (objFields (filterProperties [] spec)) "description" (descriptionOf cs))

/-- `add_doc` from `mcp_tools/docs.py`: the registered documentation tool
(parameters are the literal empty dict; the payload is served by the
closure). `none` models the exceptions of the schema pipeline. -/
def addDoc (crd : Crd) : Option Tool :=
  (docPayload crd).map fun _ =>
    { name := "get_" ++ pyLower crd.kind ++ "_documentation",
      parameters := .obj [],
      description := "Get full documentation for " ++ crd.kind ++ " resource" }

/-- The injected string parameter descriptions for `name`/`namespace`. -/
def strParam (desc : String) : JValue :=
  .obj [("type", .str "string"), ("description", .str desc)]

/-- `params['properties'][k] = v` from `add_create_tool`/`add_update_tool`:
`none` models the `KeyError` when the reduced schema has no `properties`
entry. -/
def setInProps (params : List (String × JValue)) (k : String) (v : JValue) :
    Option (List (String × JValue)) :=
  match params.lookup "properties" with
  | some (.obj ps) => some (setValueAt "properties" (.obj (dictSet ps k v)) params)
  | _ => none

/-- `add_create_tool` from `mcp_tools/create.py`. -/
def addCreateTool (crd : Crd) : Option Tool :=
  (crdSchemaFor crd).bind fun cs =>
  (specSchemaOf cs).bind fun spec =>
  (setInProps (objFields (filterProperties [] spec)) "name"
      (strParam "The name of the resource to create")).bind fun p1 =>
  (if crd.scope = "Namespaced" then
      setInProps p1 "namespace" (strParam "The namespace of the resource to create")
    else some p1).map fun p2 =>
  { name := "create_" ++ pyLower crd.kind,
    parameters := .obj p2,
    description := "Create " ++ crd.kind ++ " resource" }

/-- `add_update_tool` from `mcp_tools/update.py` (the reducer is called with
`remove_props=["required"]`). -/
def addUpdateTool (crd : Crd) : Option Tool :=
  (crdSchemaFor crd).bind fun cs =>
  (specSchemaOf cs).bind fun spec =>
  (setInProps (objFields (filterProperties ["required"] spec)) "name"
      (strParam "The name of the resource to update")).bind fun p1 =>
  (if crd.scope = "Namespaced" then
      setInProps p1 "namespace" (strParam "The namespace of the resource to update")
    else some p1).map fun p2 =>
  { name := "update_" ++ pyLower crd.kind,
    parameters := .obj p2,
    description := "Update " ++ crd.kind ++ " resource" }

/-- `add_get_tool` from `mcp_tools/get.py` (both branches assign `params`,
so registration always succeeds). -/
def addGetTool (crd : Crd) : Tool :=
  if crd.scope = "Namespaced" then
    { name := "get_" ++ pyLower crd.kind,
      parameters := .obj [("type", .str "object"),
        ("properties", .obj [
          ("namespace", strParam "The namespace to list resources from"),
          ("name", strParam "The name of the resource to get")]),
        ("required", .arr [.str "namespace", .str "name"])],
      description := "Get " ++ crd.kind ++ " resources. This is a desc" }
  else
    { name := "get_" ++ pyLower crd.kind,
      parameters := .obj [("type", .str "object"),
        ("properties", .obj [("name", strParam "The name of the resource to get")]),
        ("required", .arr [.str "name"])],
      description := "Get " ++ crd.kind ++ " resources. This is a desc" }

/-- `add_list_tool` from `mcp_tools/list.py`. On the non-namespaced branch
the local `params` is never assigned, so evaluating
`FunctionTool(..., parameters=params, ...)` raises `UnboundLocalError`
before `mcp_server.add_tool` runs; modelled as `Except.error`. -/
def addListTool (crd : Crd) : Except String Tool :=
  if crd.scope = "Namespaced" then
    .ok { name := "list_" ++ pyLower crd.kind,
          parameters := .obj [("type", .str "object"),
            ("properties", .obj [
              ("namespace", strParam "The namespace to list resources from")]),
            ("required", .arr [.str "namespace"])],
          description := "List all " ++ crd.kind ++ " resources. This is a desc" }
  else .error "UnboundLocalError: params"

/-! ## server.py: load_config_from_yaml -/

/-- One entry of `allowed_crds`/`allowed_groups` in the parsed YAML
configuration: `crd_config.get('name')` and `crd_config.get('methods', [])`
(`none`/`[]` when the key is absent). -/
structure RawEntry where
  name : Option String
  methods : List String
deriving DecidableEq

/-- A parsed configuration document with its two entry lists (each `[]`
when the corresponding key is absent). -/
structure RawConfig where
  allowed_crds : List RawEntry
  allowed_groups : List RawEntry
deriving DecidableEq

/-- The per-entry `if not methods: methods = ['docs', ...]` step of
`load_config_from_yaml`. -/
def effectiveEntryMethods (e : RawEntry) : List String :=
  if e.methods = [] then allMethods else e.methods

/-- The dict-building loop of `load_config_from_yaml`. The guard is Python
`if crd_name:`, a truthiness test: entries whose name is absent or the
empty string are skipped. Duplicate names overwrite in place, and empty
method lists become the full method set. -/
def processEntriesAux (acc : List (String × List String)) :
    List RawEntry → List (String × List String)
  | [] => acc
  | e :: rest =>
    match e.name with
    | some n =>
      if n = "" then processEntriesAux acc rest
      else processEntriesAux (dictSet acc n (effectiveEntryMethods e)) rest
    | none => processEntriesAux acc rest

/-- The dictionary built from one entry list of the configuration. -/
def processEntries (l : List RawEntry) : List (String × List String) :=
  processEntriesAux [] l

/-- `load_config_from_yaml` from `server.py`, after YAML parsing: `none`
models an empty or null document (the `if not config` branch). When both
entry lists are absent or empty the loader returns two empty maps
(allow-all); otherwise it returns the two built dictionaries. -/
def loadConfigFromYaml (config : Option RawConfig) :
    List (String × List String) × List (String × List String) :=
  match config with
  | none => ([], [])
  | some cfg =>
    let ac := processEntries cfg.allowed_crds
    let ag := processEntries cfg.allowed_groups
    if cfg.allowed_crds = [] ∧ cfg.allowed_groups = [] then ([], []) else (ac, ag)

/-- The CRD of the specification's create scenario: Namespaced, group
`example.io`, kind `Widget`, one served storage version `v1` whose spec
schema is `properties: size: type: integer`. -/
def widgetCrd : Crd :=
  { name := "widgets.example.io", group := "example.io", kind := "Widget",
    plural := "widgets", scope := "Namespaced",
    versions := [⟨"v1", true, true,
      .obj [("properties", .obj [("spec", .obj [("properties", .obj
        [("size", .obj [("type", .str "integer")])])])])]⟩] }

/-! ## Association-list lemmas -/

/-- Keys absent from the front of an appended association list are looked
up in the back. -/
theorem lookup_append_of_none {α : Type} (l1 l2 : List (String × α)) (k : String)
    (h : l1.lookup k = none) : (l1 ++ l2).lookup k = l2.lookup k := by
  induction l1 with
  | nil => rfl
  | cons p rest ih =>
    obtain ⟨k2, v⟩ := p
    rcases hk : (k == k2) with _ | _
    · simp only [List.cons_append, List.lookup, hk] at h ⊢
      exact ih h
    · simp only [List.lookup, hk] at h
      exact Option.noConfusion h

/-- `setValueAt` rewrites the first entry holding the key, on a list whose
front does not hold it. -/
theorem setValueAt_append_of_none {α : Type} (l1 l2 : List (String × α))
    (k : String) (v w : α) (h : l1.lookup k = none) :
    setValueAt k w (l1 ++ (k, v) :: l2) = l1 ++ (k, w) :: l2 := by
  induction l1 with
  | nil => simp [setValueAt]
  | cons p rest ih =>
    obtain ⟨k2, v2⟩ := p
    rcases hk : (k == k2) with _ | _
    · simp only [List.lookup, hk] at h
      have hne : k2 ≠ k := by
        intro hc
        rw [hc] at hk
        simp at hk
      simp [setValueAt, hne, ih h]
    · simp only [List.lookup, hk] at h
      exact Option.noConfusion h

/-- `eraseKey` removes the first entry holding the key, on a list whose
front does not hold it. -/
theorem eraseKey_append_of_none {α : Type} (l1 l2 : List (String × α))
    (k : String) (v : α) (h : l1.lookup k = none) :
    eraseKey k (l1 ++ (k, v) :: l2) = l1 ++ l2 := by
  induction l1 with
  | nil => simp [eraseKey]
  | cons p rest ih =>
    obtain ⟨k2, v2⟩ := p
    rcases hk : (k == k2) with _ | _
    · simp only [List.lookup, hk] at h
      have hne : k2 ≠ k := by
        intro hc
        rw [hc] at hk
        simp at hk
      simp [eraseKey, hne, ih h]
    · simp only [List.lookup, hk] at h
      exact Option.noConfusion h

/-! ## C1: policy precedence in get_effective_methods -/

/-- C1: `get_effective_methods` follows the four-case precedence exactly: a
resource-policy entry is returned verbatim (so an empty entry denies
everything), else a group-policy entry, else the full default set when both
maps are entirely empty, else the empty set. -/
theorem c1_effective_methods_precedence (crd_name crd_group : String)
    (rc gp : List (String × List String)) :
    (∀ ms, rc.lookup crd_name = some ms →
      getEffectiveMethods crd_name crd_group rc gp = ms) ∧
    (rc.lookup crd_name = none → ∀ ms, gp.lookup crd_group = some ms →
      getEffectiveMethods crd_name crd_group rc gp = ms) ∧
    (rc = [] → gp = [] →
      getEffectiveMethods crd_name crd_group rc gp = allMethods) ∧
    (rc.lookup crd_name = none → gp.lookup crd_group = none →
      ¬(rc = [] ∧ gp = []) →
      getEffectiveMethods crd_name crd_group rc gp = []) := by
  refine ⟨?_, ?_, ?_, ?_⟩
  · intro ms h
    simp [getEffectiveMethods, h]
  · intro h1 ms h2
    simp [getEffectiveMethods, h1, h2]
  · intro h1 h2
    subst h1; subst h2
    simp [getEffectiveMethods, List.lookup]
  · intro h1 h2 h3
    simp [getEffectiveMethods, h1, h2, List.isEmpty_iff]
    intro hrc hgp
    exact absurd ⟨hrc, hgp⟩ h3

/-- C1 witness: the four branches at concrete inputs, including the
specification's explicit-deny scenario. -/
theorem c1_witness :
    getEffectiveMethods "x" "g" [("x", [])] [("g", ["get"])] = [] ∧
    getEffectiveMethods "y" "g" [("x", [])] [("g", ["get"])] = ["get"] ∧
    getEffectiveMethods "y" "h" [] [] = allMethods ∧
    getEffectiveMethods "y" "h" [("x", ["get"])] [] = [] :=
  ⟨(c1_effective_methods_precedence "x" "g" [("x", [])] [("g", ["get"])]).1 [] rfl,
   (c1_effective_methods_precedence "y" "g" [("x", [])] [("g", ["get"])]).2.1 rfl ["get"] rfl,
   (c1_effective_methods_precedence "y" "h" [] []).2.2.1 rfl rfl,
   (c1_effective_methods_precedence "y" "h" [("x", ["get"])] []).2.2.2 rfl rfl (by simp)⟩

/-! ## C2: version resolution -/

/-- C2: `get_preferred_version` returns the served version marked
`storage = true` when exactly one exists, else the first served version in
declaration order, else the first declared version (on a non-empty version
list). -/
theorem c2_preferred_version (crd : Crd) (v : CrdVersion) (hne : crd.versions ≠ []) :
    ((crd.versions.filter (fun w => w.served)).filter (fun w => w.storage) = [v] →
      getPreferredVersion crd = some v.name) ∧
    ((crd.versions.filter (fun w => w.served)).filter (fun w => w.storage) = [] →
      (crd.versions.filter (fun w => w.served)).head? = some v →
      getPreferredVersion crd = some v.name) ∧
    (crd.versions.filter (fun w => w.served) = [] →
      crd.versions.head? = some v →
      getPreferredVersion crd = some v.name) := by
  refine ⟨?_, ?_, ?_⟩
  · intro h
    simp only [getPreferredVersion]
    rw [h]
    rfl
  · intro h1 h2
    cases hs : crd.versions.filter (fun w => w.served) with
    | nil =>
      rw [hs] at h2
      exact Option.noConfusion h2
    | cons a tl =>
      rw [hs] at h1 h2
      injection h2 with h2
      subst h2
      simp only [getPreferredVersion]
      rw [hs, h1]
      rfl
  · intro h1 h2
    cases hv : crd.versions with
    | nil => exact absurd hv hne
    | cons a tl =>
      rw [hv] at h2
      injection h2 with h2
      subst h2
      simp only [getPreferredVersion]
      rw [h1, hv]
      rfl

/-- C2 witness: the three branches at concrete version lists. -/
theorem c2_witness :
    getPreferredVersion ⟨"w", "g", "W", "ws", "Namespaced",
      [⟨"v1", true, false, .null⟩, ⟨"v2", true, true, .null⟩]⟩ = some "v2" ∧
    getPreferredVersion ⟨"w", "g", "W", "ws", "Namespaced",
      [⟨"v1", false, true, .null⟩, ⟨"v2", true, false, .null⟩]⟩ = some "v2" ∧
    getPreferredVersion ⟨"w", "g", "W", "ws", "Namespaced",
      [⟨"v1", false, true, .null⟩, ⟨"v2", false, false, .null⟩]⟩ = some "v1" :=
  ⟨(c2_preferred_version ⟨"w", "g", "W", "ws", "Namespaced",
      [⟨"v1", true, false, .null⟩, ⟨"v2", true, true, .null⟩]⟩
      ⟨"v2", true, true, .null⟩ (by decide)).1 (by decide),
   (c2_preferred_version ⟨"w", "g", "W", "ws", "Namespaced",
      [⟨"v1", false, true, .null⟩, ⟨"v2", true, false, .null⟩]⟩
      ⟨"v2", true, false, .null⟩ (by decide)).2.1 (by decide) (by decide),
   (c2_preferred_version ⟨"w", "g", "W", "ws", "Namespaced",
      [⟨"v1", false, true, .null⟩, ⟨"v2", false, false, .null⟩]⟩
      ⟨"v1", false, true, .null⟩ (by decide)).2.2 (by decide) (by decide)⟩

/-! ## C3: error handling of the list operations -/

/-- C3 counterexample: a transport error on the cluster-scoped list
operation propagates instead of being absorbed into an empty result. -/
theorem c3_counterexample :
    clusterListFunction (.error "connection refused") = .error "connection refused" ∧
    clusterListFunction (.error "connection refused") ≠ .ok [] :=
  ⟨rfl, nofun⟩

/-- C3 (amended): a response without an `items` key yields the empty list
for both list operations; a transport error is absorbed into an empty
result by the namespaced list operation but propagated by the
cluster-scoped one. -/
theorem c3_list_error_handling (e : String) (fields : List (String × JValue))
    (hitems : fields.lookup "items" = none) :
    namespacedListFunction (.error e) = .ok [] ∧
    clusterListFunction (.error e) = .error e ∧
    clusterListFunction (.ok fields) = .ok [] ∧
    namespacedListFunction (.ok fields) = .ok [] := by
  refine ⟨rfl, rfl, ?_, ?_⟩ <;>
    simp [clusterListFunction, namespacedListFunction, extractListResult, hitems]

/-- C3 witness: a concrete response without `items` lists as empty. -/
theorem c3_witness :
    clusterListFunction (.ok [("kind", .str "WidgetList")]) = .ok [] ∧
    namespacedListFunction (.ok [("kind", .str "WidgetList")]) = .ok [] :=
  ⟨(c3_list_error_handling "boom" [("kind", .str "WidgetList")] rfl).2.2.1,
   (c3_list_error_handling "boom" [("kind", .str "WidgetList")] rfl).2.2.2⟩

/-! ## C5: the create body -/

/-- C5: invoking the synthesized create operation of the Widget CRD with
name w1, namespace ns1 and size 3 builds exactly the expected body, whose
metadata routes it to the namespaced create endpoint; a body whose metadata
has no namespace key routes to the cluster-scoped endpoint instead. -/
theorem c5_create_submits_exact_body (bf : List (String × JValue)) (m : JValue)
    (hm : bf.lookup "metadata" = some m)
    (hns : (objFields m).lookup "namespace" = none) :
    namespacedCreateBody widgetCrd "w1" "ns1" [("size", .num 3)] =
      some [("apiVersion", .str "example.io/v1"),
            ("kind", .str "Widget"),
            ("metadata", .obj [("name", .str "w1"), ("namespace", .str "ns1")]),
            ("spec", .obj [("size", .num 3)])] ∧
    createDispatch [("apiVersion", .str "example.io/v1"),
            ("kind", .str "Widget"),
            ("metadata", .obj [("name", .str "w1"), ("namespace", .str "ns1")]),
            ("spec", .obj [("size", .num 3)])] =
      some (.namespacedCreate (.str "ns1")) ∧
    createDispatch bf = some .clusterCreate := by
  refine ⟨by decide, by decide, ?_⟩
  simp [createDispatch, hm, hns]

/-- C5 witness: the create body of the scenario, and the cluster route on
a body without a namespace. -/
theorem c5_witness :
    namespacedCreateBody widgetCrd "w1" "ns1" [("size", .num 3)] =
      some [("apiVersion", .str "example.io/v1"),
            ("kind", .str "Widget"),
            ("metadata", .obj [("name", .str "w1"), ("namespace", .str "ns1")]),
            ("spec", .obj [("size", .num 3)])] ∧
    createDispatch [("metadata", .obj [("name", .str "w1")])] = some .clusterCreate :=
  ⟨(c5_create_submits_exact_body [("metadata", .obj [("name", .str "w1")])]
      (.obj [("name", .str "w1")]) rfl rfl).1,
   (c5_create_submits_exact_body [("metadata", .obj [("name", .str "w1")])]
      (.obj [("name", .str "w1")]) rfl rfl).2.2⟩

/-! ## C7: cluster-scoped list registration -/

/-- C7: on the cluster-scope branch of `add_list_tool` the parameter
variable is unbound, so registration raises before any tool is added and no
list tool is ever successfully registered for a cluster-scoped CRD. -/
theorem c7_cluster_list_unbound_params (crd : Crd) (h : crd.scope = "Cluster") :
    addListTool crd = .error "UnboundLocalError: params" ∧
    ∀ t : Tool, addListTool crd ≠ .ok t := by
  have he : addListTool crd = .error "UnboundLocalError: params" := by
    simp [addListTool, h]
  exact ⟨he, fun t hc => by rw [he] at hc; exact Except.noConfusion hc⟩

/-- C7 witness: a concrete cluster-scoped CRD. -/
theorem c7_witness :
    addListTool ⟨"stars.example.io", "example.io", "Star", "stars", "Cluster", []⟩ =
      .error "UnboundLocalError: params" :=
  (c7_cluster_list_unbound_params
    ⟨"stars.example.io", "example.io", "Star", "stars", "Cluster", []⟩ rfl).1

/-! ## C4: enum entries in the reducer -/

/-- C4 counterexample: on an enum holding a null among non-null values the
reducer also drops the falsy non-null entry (the empty string), so its
output differs from the input with exactly the nulls removed. -/
theorem c4_counterexample :
    filterProperties [] (.obj [("enum", .arr [.null, .str "a", .str ""])]) =
      .obj [("enum", .arr [.str "a"])] ∧
    [JValue.null, .str "a", .str ""].filter (fun v => v != JValue.null) =
      [.str "a", .str ""] ∧
    JValue.obj [("enum", .arr [.str "a"])] ≠
      .obj [("enum", .arr [.str "a", .str ""])] := by
  refine ⟨?_, by decide, by decide⟩
  simp [filterProperties, mainFields, propsTail, pyFilterTruthy, truthy]

/-- A failed lookup means no entry carries the key. -/
theorem lookup_none_keys {α : Type} (l : List (String × α)) (k : String)
    (h : l.lookup k = none) : ∀ p ∈ l, p.1 ≠ k := by
  induction l with
  | nil => intro p hp; cases hp
  | cons q rest ih =>
    obtain ⟨k2, v⟩ := q
    rcases hk : (k == k2) with _ | _
    · simp only [List.lookup, hk] at h
      intro p hp
      rcases List.mem_cons.mp hp with rfl | hp2
      · intro hc
        have hc2 : k2 = k := hc
        rw [hc2] at hk
        simp at hk
      · exact ih h p hp2
    · simp only [List.lookup, hk] at h
      exact Option.noConfusion h

/-- If no entry carries the key, its lookup fails. -/
theorem keys_ne_lookup_none {α : Type} (l : List (String × α)) (k : String)
    (h : ∀ p ∈ l, p.1 ≠ k) : l.lookup k = none := by
  induction l with
  | nil => rfl
  | cons q rest ih =>
    obtain ⟨k2, v⟩ := q
    have hk2 : k2 ≠ k := h (k2, v) (List.mem_cons_self _ _)
    have hk : (k == k2) = false := by
      simp only [beq_eq_false_iff_ne]
      exact fun hc => hk2 hc.symm
    simp only [List.lookup, hk]
    exact ih (fun p hp => h p (List.mem_cons_of_mem _ hp))

/-- The main loop distributes over list concatenation. -/
theorem mainFields_append (rp : List String) (a b : List (String × JValue)) :
    mainFields rp (a ++ b) = mainFields rp a ++ mainFields rp b := by
  induction a with
  | nil => simp [mainFields]
  | cons kv rest ih =>
    obtain ⟨k, v⟩ := kv
    simp only [List.cons_append, mainFields, ih, List.append_assoc]

/-- The main loop emits an `enum` entry only for an `enum` input key. -/
theorem mainFields_no_enum (rp : List String) (fs : List (String × JValue))
    (h : ∀ p ∈ fs, p.1 ≠ "enum") :
    ∀ q ∈ mainFields rp fs, q.1 ≠ "enum" := by
  induction fs with
  | nil =>
    intro q hq
    simp [mainFields] at hq
  | cons kv rest ih =>
    obtain ⟨k, v⟩ := kv
    have hk : k ≠ "enum" := h (k, v) (List.mem_cons_self _ _)
    intro q hq
    simp only [mainFields] at hq
    rcases List.mem_append.mp hq with h2 | h2
    · split_ifs at h2 with hA hB hC hD
      · exact absurd hA.1 hk
      · simp only [List.mem_singleton] at h2
        subst h2
        simp
      · simp only [List.mem_singleton] at h2
        subst h2
        simp
      · simp only [List.mem_singleton] at h2
        subst h2
        exact hk
      · cases h2
    · exact ih (fun p hp => h p (List.mem_cons_of_mem _ hp)) q h2

/-- C4 (amended): for every node carrying an `enum` list, wherever it sits
among the node's other fields, the reduced node's enum is exactly the
Python-truthy entries of the original sequence, in order: every null is
removed, but so is every other falsy value (false, 0, the empty string,
empty containers). -/
theorem c4_enum_truthy_filter (rp : List String) (pre post : List (String × JValue))
    (xs : List JValue) (hpre : pre.lookup "enum" = none) :
    (objFields (filterProperties rp
        (.obj (pre ++ ("enum", .arr xs) :: post)))).lookup "enum" =
      some (.arr (xs.filter truthy)) := by
  have h1 : mainFields rp (("enum", JValue.arr xs) :: post) =
      mainFields rp [("enum", JValue.arr xs)] ++ mainFields rp post := by
    rw [← mainFields_append]
    rfl
  have h2 : mainFields rp [("enum", JValue.arr xs)] =
      [("enum", JValue.arr (xs.filter truthy))] := by
    simp [mainFields, pyFilterTruthy]
  have hsplit : mainFields rp (pre ++ ("enum", JValue.arr xs) :: post) =
      mainFields rp pre ++ ("enum", JValue.arr (xs.filter truthy)) :: mainFields rp post := by
    rw [mainFields_append, h1, h2]
    rfl
  have hnone : (mainFields rp pre).lookup "enum" = none :=
    keys_ne_lookup_none _ _ (mainFields_no_enum rp pre (lookup_none_keys pre "enum" hpre))
  simp only [filterProperties, objFields]
  rw [hsplit, List.append_assoc, lookup_append_of_none _ _ "enum" hnone]
  simp [List.lookup]

/-- C4 witness: a node carrying `type`, the enum and a `description`; the
reduced enum drops the null and the empty string and keeps the rest. -/
theorem c4_witness :
    (objFields (filterProperties []
      (.obj [("type", .str "string"),
             ("enum", .arr [.null, .str "a", .str ""]),
             ("description", .str "d")]))).lookup "enum" =
      some (.arr [.str "a"]) := by
  have h2 : ([JValue.null, .str "a", .str ""].filter truthy) = [JValue.str "a"] := by
    decide
  rw [← h2]
  exact c4_enum_truthy_filter [] [("type", .str "string")]
    [("description", .str "d")] [.null, .str "a", .str ""] rfl

/-! ## C9: the get operation strips managedFields -/

/-- C9: on a response carrying `metadata.managedFields`, the get closure
returns the response with exactly that entry deleted: every other response
field, and every other metadata field, is returned unchanged in order. -/
theorem c9_get_strips_managed_fields
    (fetch : String → String → List (String × JValue)) (ns nm : String)
    (pre post mpre mpost : List (String × JValue)) (v : JValue)
    (hfetch : fetch ns nm =
      pre ++ ("metadata", .obj (mpre ++ ("managedFields", v) :: mpost)) :: post)
    (hpre : pre.lookup "metadata" = none)
    (hmpre : mpre.lookup "managedFields" = none) :
    namespacedGetFunction fetch ns nm =
      some (pre ++ ("metadata", .obj (mpre ++ mpost)) :: post) := by
  have h1 : (pre ++ ("metadata", JValue.obj (mpre ++ ("managedFields", v) :: mpost))
      :: post).lookup "metadata" =
      some (.obj (mpre ++ ("managedFields", v) :: mpost)) := by
    rw [lookup_append_of_none pre _ "metadata" hpre]
    simp [List.lookup]
  have h2 : (mpre ++ ("managedFields", v) :: mpost).lookup "managedFields" = some v := by
    rw [lookup_append_of_none mpre _ "managedFields" hmpre]
    simp [List.lookup]
  simp only [namespacedGetFunction, slim, hfetch, h1, h2, Option.isSome_some, if_true]
  rw [eraseKey_append_of_none mpre mpost "managedFields" v hmpre,
    setValueAt_append_of_none pre post "metadata" _ _ hpre]

/-- C9 witness: a concrete response with managedFields present. -/
theorem c9_witness :
    namespacedGetFunction
      (fun _ _ =>
        [("apiVersion", .str "example.io/v1"),
         ("metadata", .obj [("name", .str "w1"),
           ("managedFields", .arr [.obj [("manager", .str "kubectl")]]),
           ("labels", .obj [("a", .str "b")])]),
         ("spec", .obj [("size", .num 3)])])
      "ns1" "w1" =
      some [("apiVersion", .str "example.io/v1"),
            ("metadata", .obj [("name", .str "w1"), ("labels", .obj [("a", .str "b")])]),
            ("spec", .obj [("size", .num 3)])] :=
  c9_get_strips_managed_fields _ "ns1" "w1"
    [("apiVersion", .str "example.io/v1")]
    [("spec", .obj [("size", .num 3)])]
    [("name", .str "w1")]
    [("labels", .obj [("a", .str "b")])]
    (.arr [.obj [("manager", .str "kubectl")]])
    rfl rfl rfl

/-! ## C8: empty method lists in the configuration loader -/

/-- Splitting a lookup over an appended association list. -/
theorem lookup_append_split {α : Type} (l1 l2 : List (String × α)) (k : String) :
    (l1 ++ l2).lookup k =
      match l1.lookup k with
      | some v => some v
      | none => l2.lookup k := by
  induction l1 with
  | nil => rfl
  | cons p rest ih =>
    obtain ⟨k2, v⟩ := p
    rcases hk : (k == k2) with _ | _
    · simp only [List.cons_append, List.lookup, hk]
      exact ih
    · simp only [List.cons_append, List.lookup, hk]

/-- `setValueAt` leaves lookups of other keys unchanged. -/
theorem setValueAt_lookup_ne {α : Type} (l : List (String × α)) (k : String) (v : α)
    (n : String) (h : k ≠ n) : (setValueAt k v l).lookup n = l.lookup n := by
  induction l with
  | nil => rfl
  | cons p rest ih =>
    obtain ⟨k2, w⟩ := p
    by_cases hk : k2 = k
    · subst hk
      have hn : (n == k2) = false := by
        simp only [beq_eq_false_iff_ne]
        exact fun hc => h hc.symm
      simp [setValueAt, List.lookup, hn]
    · simp only [setValueAt, if_neg hk]
      rcases hn : (n == k2) with _ | _ <;> simp [List.lookup, hn, ih]

/-- `setValueAt` updates the looked-up value of a present key. -/
theorem setValueAt_lookup_self {α : Type} (l : List (String × α)) (k : String) (v : α)
    (h : (l.lookup k).isSome) : (setValueAt k v l).lookup k = some v := by
  induction l with
  | nil => simp [List.lookup] at h
  | cons p rest ih =>
    obtain ⟨k2, w⟩ := p
    by_cases hk : k2 = k
    · subst hk
      simp [setValueAt, List.lookup]
    · have hn : (k == k2) = false := by
        simp only [beq_eq_false_iff_ne]
        exact fun hc => hk hc.symm
      simp only [List.lookup, hn] at h
      simp [setValueAt, if_neg hk, List.lookup, hn, ih h]

/-- Python dict assignment makes the key's value the assigned one. -/
theorem dictSet_lookup_self {α : Type} (l : List (String × α)) (k : String) (v : α) :
    (dictSet l k v).lookup k = some v := by
  unfold dictSet
  split
  · exact setValueAt_lookup_self l k v (by assumption)
  · rename_i h
    rw [lookup_append_split]
    have hnone : l.lookup k = none := by
      cases hl : l.lookup k
      · rfl
      · rw [hl] at h
        simp at h
    rw [hnone]
    simp [List.lookup]

/-- Python dict assignment leaves other keys unchanged. -/
theorem dictSet_lookup_ne {α : Type} (l : List (String × α)) (k : String) (v : α)
    (n : String) (h : k ≠ n) : (dictSet l k v).lookup n = l.lookup n := by
  unfold dictSet
  split
  · exact setValueAt_lookup_ne l k v n h
  · rw [lookup_append_split]
    cases hl : l.lookup n
    · have hn : (n == k) = false := by
        simp only [beq_eq_false_iff_ne]
        exact fun hc => h hc.symm
      simp [List.lookup, hn]
    · rfl

/-- Entries whose name never matches leave the built dictionary's lookup at
that name unchanged. -/
theorem processEntriesAux_lookup_of_not_mem (l : List RawEntry)
    (acc : List (String × List String)) (n : String)
    (h : ∀ e ∈ l, e.name ≠ some n) :
    (processEntriesAux acc l).lookup n = acc.lookup n := by
  induction l generalizing acc with
  | nil => rfl
  | cons f rest ih =>
    cases hf : f.name with
    | none =>
      simp only [processEntriesAux, hf]
      exact ih acc (fun e he => h e (List.mem_cons_of_mem f he))
    | some m =>
      have hm : m ≠ n := by
        intro hc
        exact h f (List.mem_cons_self f rest) (by rw [hf, hc])
      simp only [processEntriesAux, hf]
      by_cases hm0 : m = ""
      · rw [if_pos hm0]
        exact ih _ (fun e he => h e (List.mem_cons_of_mem f he))
      · rw [if_neg hm0]
        rw [ih _ (fun e he => h e (List.mem_cons_of_mem f he))]
        exact dictSet_lookup_ne acc m _ n hm

/-- When entry names are distinct, the built dictionary maps each named
entry to its effective methods. -/
theorem processEntriesAux_lookup_mem (l : List RawEntry)
    (acc : List (String × List String)) (e : RawEntry) (n : String)
    (he : e ∈ l) (hname : e.name = some n) (hne : n ≠ "")
    (hnodup : (l.filterMap RawEntry.name).Nodup) :
    (processEntriesAux acc l).lookup n = some (effectiveEntryMethods e) := by
  induction l generalizing acc with
  | nil => cases he
  | cons f rest ih =>
    rcases List.mem_cons.mp he with hef | herest
    · subst hef
      simp only [processEntriesAux, hname]
      rw [if_neg hne]
      have hrest : ∀ e2 ∈ rest, e2.name ≠ some n := by
        intro e2 he2 hc
        have hmem : n ∈ rest.filterMap RawEntry.name :=
          List.mem_filterMap.mpr ⟨e2, he2, hc⟩
        have := List.nodup_cons.mp (by
          rwa [List.filterMap_cons_some hname] at hnodup)
        exact this.1 hmem
      rw [processEntriesAux_lookup_of_not_mem rest _ n hrest]
      exact dictSet_lookup_self acc n _
    · cases hf : f.name with
      | none =>
        simp only [processEntriesAux, hf]
        exact ih acc herest (by rwa [List.filterMap_cons_none hf] at hnodup)
      | some m =>
        have hrestnodup : (rest.filterMap RawEntry.name).Nodup := by
          have := List.nodup_cons.mp (by
            rwa [List.filterMap_cons_some hf] at hnodup)
          exact this.2
        simp only [processEntriesAux, hf]
        by_cases hm0 : m = ""
        · rw [if_pos hm0]
          exact ih acc herest hrestnodup
        · rw [if_neg hm0]
          exact ih _ herest hrestnodup

/-- C8: a configuration entry with a present name and an empty (or missing)
methods list grants the full method set for that name in the loaded
policy, for `allowed_crds` and `allowed_groups` alike. -/
theorem c8_empty_methods_allow_all (cfg : RawConfig) (e : RawEntry) (n : String)
    (hname : e.name = some n) (hn0 : n ≠ "") (hmethods : e.methods = [])
    (hnodup1 : (cfg.allowed_crds.filterMap RawEntry.name).Nodup)
    (hnodup2 : (cfg.allowed_groups.filterMap RawEntry.name).Nodup) :
    (e ∈ cfg.allowed_crds →
      (loadConfigFromYaml (some cfg)).1.lookup n = some allMethods) ∧
    (e ∈ cfg.allowed_groups →
      (loadConfigFromYaml (some cfg)).2.lookup n = some allMethods) := by
  have heff : effectiveEntryMethods e = allMethods := by
    simp [effectiveEntryMethods, hmethods]
  constructor
  · intro hin
    have hne : cfg.allowed_crds ≠ [] := by
      intro hc
      rw [hc] at hin
      cases hin
    simp only [loadConfigFromYaml]
    rw [if_neg (fun hc => hne hc.1)]
    rw [show (processEntries cfg.allowed_crds, processEntries cfg.allowed_groups).1 =
      processEntries cfg.allowed_crds from rfl]
    rw [processEntries, processEntriesAux_lookup_mem _ [] e n hin hname hn0 hnodup1, heff]
  · intro hin
    have hne : cfg.allowed_groups ≠ [] := by
      intro hc
      rw [hc] at hin
      cases hin
    simp only [loadConfigFromYaml]
    rw [if_neg (fun hc => hne hc.2)]
    rw [show (processEntries cfg.allowed_crds, processEntries cfg.allowed_groups).2 =
      processEntries cfg.allowed_groups from rfl]
    rw [processEntries, processEntriesAux_lookup_mem _ [] e n hin hname hn0 hnodup2, heff]

/-- C8 witness: a configuration with one empty-methods CRD entry and one
empty-methods group entry grants everything for both names. -/
theorem c8_witness :
    (loadConfigFromYaml (some ⟨[⟨some "a.io", []⟩], [⟨some "g", []⟩]⟩)).1.lookup "a.io" =
      some allMethods ∧
    (loadConfigFromYaml (some ⟨[⟨some "a.io", []⟩], [⟨some "g", []⟩]⟩)).2.lookup "g" =
      some allMethods :=
  ⟨(c8_empty_methods_allow_all ⟨[⟨some "a.io", []⟩], [⟨some "g", []⟩]⟩
      ⟨some "a.io", []⟩ "a.io" rfl (by decide) rfl (by decide) (by decide)).1 (by decide),
   (c8_empty_methods_allow_all ⟨[⟨some "a.io", []⟩], [⟨some "g", []⟩]⟩
      ⟨some "g", []⟩ "g" rfl (by decide) rfl (by decide) (by decide)).2 (by decide)⟩

/-- C8 counterexample: an entry whose name is the empty string and whose
methods list is empty is skipped by the loader (Python `if crd_name:` is a
truthiness test), so the loaded policy maps nothing for it instead of the
full method set. -/
theorem c8_counterexample :
    (⟨some "", []⟩ : RawEntry) ∈ (⟨[⟨some "", []⟩], []⟩ : RawConfig).allowed_crds ∧
    (loadConfigFromYaml (some ⟨[⟨some "", []⟩], []⟩)).1.lookup "" = none ∧
    (loadConfigFromYaml (some ⟨[⟨some "", []⟩], []⟩)).1.lookup "" ≠ some allMethods :=
  ⟨by decide, by decide, by decide⟩

/-! ## C10: registered tool names -/

/-- C10 counterexample: the Widget CRD's docs operation registers under
`get_widget_documentation`, which is not `{verb}_{kind-lowercased}` for any
of the five operation verbs. -/
theorem c10_counterexample :
    (addDoc widgetCrd).map Tool.name = some "get_widget_documentation" ∧
    "get_widget_documentation" ∉
      allMethods.map (fun verb => verb ++ "_" ++ pyLower widgetCrd.kind) := by
  constructor
  · simp [addDoc, docPayload, crdSchemaFor, specSchemaOf, getPreferredVersion,
      widgetCrd, objFields, descriptionOf, filterProperties, mainFields, propsTail,
      innerFields, dictSet, setValueAt, pyLower]
  · decide

/-- C10 (amended): the create, update, get and list operations register
under `{verb}_{kind-lowercased}`; the docs operation registers under
`get_{kind-lowercased}_documentation`. -/
theorem c10_tool_names (crd : Crd) (t : Tool) :
    (addListTool crd = .ok t → t.name = "list_" ++ pyLower crd.kind) ∧
    ((addGetTool crd).name = "get_" ++ pyLower crd.kind) ∧
    (addCreateTool crd = some t → t.name = "create_" ++ pyLower crd.kind) ∧
    (addUpdateTool crd = some t → t.name = "update_" ++ pyLower crd.kind) ∧
    (addDoc crd = some t →
      t.name = "get_" ++ pyLower crd.kind ++ "_documentation") := by
  refine ⟨?_, ?_, ?_, ?_, ?_⟩
  · intro h
    unfold addListTool at h
    split at h
    · injection h with h
      rw [← h]
    · exact Except.noConfusion h
  · unfold addGetTool
    split <;> rfl
  · intro h
    simp only [addCreateTool, Option.bind_eq_some, Option.map_eq_some'] at h
    obtain ⟨cs, hcs, spec, hspec, p1, hp1, p2, hp2, ht⟩ := h
    rw [← ht]
  · intro h
    simp only [addUpdateTool, Option.bind_eq_some, Option.map_eq_some'] at h
    obtain ⟨cs, hcs, spec, hspec, p1, hp1, p2, hp2, ht⟩ := h
    rw [← ht]
  · intro h
    simp only [addDoc, Option.map_eq_some'] at h
    obtain ⟨a, ha, ht⟩ := h
    rw [← ht]

/-- C10 witness: the five registered names for the Widget CRD. -/
theorem c10_witness :
    (addGetTool widgetCrd).name = "get_" ++ pyLower widgetCrd.kind ∧
    (addListTool widgetCrd).toOption.map Tool.name =
      some ("list_" ++ pyLower widgetCrd.kind) ∧
    (addCreateTool widgetCrd).map Tool.name =
      some ("create_" ++ pyLower widgetCrd.kind) ∧
    (addUpdateTool widgetCrd).map Tool.name =
      some ("update_" ++ pyLower widgetCrd.kind) ∧
    (addDoc widgetCrd).map Tool.name =
      some ("get_" ++ pyLower widgetCrd.kind ++ "_documentation") := by
  have hl : addListTool widgetCrd =
      .ok { name := "list_widget",
            parameters := .obj [("type", .str "object"),
              ("properties", .obj [
                ("namespace", strParam "The namespace to list resources from")]),
              ("required", .arr [.str "namespace"])],
            description := "List all Widget resources. This is a desc" } := by
    simp [addListTool, widgetCrd, pyLower, strParam]
  have hc : addCreateTool widgetCrd =
      some { name := "create_widget",
             parameters := .obj [("properties", .obj
               [("size", .obj [("type", .str "integer")]),
                ("name", strParam "The name of the resource to create"),
                ("namespace", strParam "The namespace of the resource to create")])],
             description := "Create Widget resource" } := by
    simp [addCreateTool, crdSchemaFor, specSchemaOf, getPreferredVersion, widgetCrd,
      objFields, filterProperties, mainFields, propsTail, innerFields, setInProps,
      dictSet, setValueAt, pyLower, strParam, List.lookup]
  have hu : addUpdateTool widgetCrd =
      some { name := "update_widget",
             parameters := .obj [("properties", .obj
               [("size", .obj [("type", .str "integer")]),
                ("name", strParam "The name of the resource to update"),
                ("namespace", strParam "The namespace of the resource to update")])],
             description := "Update Widget resource" } := by
    simp [addUpdateTool, crdSchemaFor, specSchemaOf, getPreferredVersion, widgetCrd,
      objFields, filterProperties, mainFields, propsTail, innerFields, setInProps,
      dictSet, setValueAt, pyLower, strParam, List.lookup]
  have hd : addDoc widgetCrd =
      some { name := "get_widget_documentation",
             parameters := .obj [],
             description := "Get full documentation for Widget resource" } := by
    simp [addDoc, docPayload, crdSchemaFor, specSchemaOf, getPreferredVersion,
      widgetCrd, objFields, descriptionOf, filterProperties, mainFields, propsTail,
      innerFields, dictSet, setValueAt, pyLower, List.lookup]
  refine ⟨(c10_tool_names widgetCrd ⟨"", .null, ""⟩).2.1, ?_, ?_, ?_, ?_⟩
  · rw [hl]
    simp only [Except.toOption, Option.map_some', (c10_tool_names widgetCrd _).1 hl]
    rfl
  · rw [hc]
    simp only [Option.map_some', (c10_tool_names widgetCrd _).2.2.1 hc]
    rfl
  · rw [hu]
    simp only [Option.map_some', (c10_tool_names widgetCrd _).2.2.2.1 hu]
    rfl
  · rw [hd]
    simp only [Option.map_some', (c10_tool_names widgetCrd _).2.2.2.2 hd]
    rfl

/-! ## C6: idempotence of the schema reducer -/

/-- The main loop never emits an entry keyed `properties`. -/
theorem mainFields_no_properties (rp : List String) (fs : List (String × JValue)) :
    ∀ p ∈ mainFields rp fs, p.1 ≠ "properties" := by
  induction fs with
  | nil =>
    intro p hp
    simp [mainFields] at hp
  | cons kv rest ih =>
    obtain ⟨k, v⟩ := kv
    intro p hp
    simp only [mainFields] at hp
    rcases List.mem_append.mp hp with h | h
    · split_ifs at h with h1 h2 h3 h4
      · simp only [List.mem_singleton] at h
        subst h
        simp
      · simp only [List.mem_singleton] at h
        subst h
        simp
      · simp only [List.mem_singleton] at h
        subst h
        simp
      · simp only [List.mem_singleton] at h
        subst h
        rcases h2.1 with rfl | rfl | rfl | rfl | rfl
        · simp
        · exact absurd rfl h4
        · simp
        · exact absurd rfl h3
        · simp
      · cases h
    · exact ih p h

/-- A front segment without a `properties` key does not affect the
`properties` scan. -/
theorem propsTail_append_of_no_properties (a b : List (String × JValue))
    (h : ∀ p ∈ a, p.1 ≠ "properties") : propsTail (a ++ b) = propsTail b := by
  induction a with
  | nil => rfl
  | cons kv rest ih =>
    obtain ⟨k, v⟩ := kv
    have hk : k ≠ "properties" := h (k, v) (List.mem_cons_self _ _)
    simp only [List.cons_append, propsTail, if_neg hk]
    exact ih (fun p hp => h p (List.mem_cons_of_mem _ hp))

/-- Output of the main loop is transparent to the `properties` scan. -/
theorem propsTail_mainFields_append (rp : List String)
    (fs b : List (String × JValue)) :
    propsTail (mainFields rp fs ++ b) = propsTail b :=
  propsTail_append_of_no_properties _ b (mainFields_no_properties rp fs)

/-- The `properties` scan produces either nothing or one `properties`
entry holding an object. -/
theorem propsTail_shape (fs : List (String × JValue)) :
    propsTail fs = [] ∨ ∃ gs, propsTail fs = [("properties", JValue.obj gs)] := by
  induction fs with
  | nil => exact Or.inl (by simp [propsTail])
  | cons kv rest ih =>
    obtain ⟨k, v⟩ := kv
    by_cases hk : k = "properties"
    · by_cases hv : v = JValue.null
      · exact Or.inl (by simp [propsTail, hk, hv])
      · exact Or.inr ⟨innerFields (objFields v), by simp [propsTail, hk, hv]⟩
    · simpa [propsTail, hk] using ih

/-- The main loop ignores the output of the `properties` scan. -/
theorem mainFields_propsTail (rp : List String) (fs : List (String × JValue)) :
    mainFields rp (propsTail fs) = [] := by
  rcases propsTail_shape fs with h | ⟨gs, h⟩ <;> rw [h] <;> simp [mainFields]

/-- Filtering for truthiness twice filters once. -/
theorem pyFilterTruthy_idem (v : JValue) :
    pyFilterTruthy (pyFilterTruthy v) = pyFilterTruthy v := by
  cases v <;> simp [pyFilterTruthy, List.filter_filter]

/-- Truthiness filtering never turns a non-null value into null. -/
theorem pyFilterTruthy_ne_null (v : JValue) (h : v ≠ .null) :
    pyFilterTruthy v ≠ .null := by
  cases v <;> simp_all [pyFilterTruthy]

/-- Truncating to 100 elements twice truncates once. -/
theorem pyTrunc100_idem (v : JValue) : pyTrunc100 (pyTrunc100 v) = pyTrunc100 v := by
  cases v <;> simp [pyTrunc100, List.take_take]

/-- Truncation never turns a non-null value into null. -/
theorem pyTrunc100_ne_null (v : JValue) (h : v ≠ .null) : pyTrunc100 v ≠ .null := by
  cases v <;> simp_all [pyTrunc100]

/-- The reducer never turns a non-null value into null. -/
theorem filterProperties_ne_null (rp : List String) (v : JValue) (h : v ≠ .null) :
    filterProperties rp v ≠ .null := by
  cases v <;> simp_all [filterProperties]

/-- One pass of the main loop over its own single-entry output is the
identity, given idempotence of the reducer on the entry's value. -/
theorem mainFields_single_idem (k : String) (v : JValue)
    (IHv : filterProperties [] (filterProperties [] v) = filterProperties [] v) :
    mainFields [] (mainFields [] [(k, v)]) = mainFields [] [(k, v)] := by
  by_cases h1 : k = "enum" ∧ v ≠ JValue.null
  · obtain ⟨rfl, hv⟩ := h1
    simp [mainFields, hv, pyFilterTruthy_ne_null v hv, pyFilterTruthy_idem]
  · by_cases h2 : (k = "type" ∨ k = "description" ∨ k = "required" ∨ k = "items"
        ∨ k = "default") ∧ k ∉ ([] : List String) ∧ v ≠ JValue.null
    · obtain ⟨hd, -, hv⟩ := h2
      rcases hd with rfl | rfl | rfl | rfl | rfl
      · simp [mainFields, hv]
      · simp [mainFields, hv, pyTrunc100_ne_null v hv, pyTrunc100_idem]
      · simp [mainFields, hv]
      · simp [mainFields, hv, filterProperties_ne_null [] v hv, IHv]
      · simp [mainFields, hv]
    · have hnil : mainFields [] [(k, v)] = [] := by
        simp only [mainFields]
        rw [if_neg h1, if_neg h2]
        rfl
      rw [hnil]
      simp [mainFields]

/-- The main loop is idempotent, given idempotence of the reducer on every
entry value. -/
theorem mainFields_idem (fs : List (String × JValue))
    (IH : ∀ kv ∈ fs, filterProperties [] (filterProperties [] kv.2) =
      filterProperties [] kv.2) :
    mainFields [] (mainFields [] fs) = mainFields [] fs := by
  induction fs with
  | nil => simp [mainFields]
  | cons kv rest ih =>
    obtain ⟨k, v⟩ := kv
    have hcons : mainFields [] ((k, v) :: rest) =
        mainFields [] [(k, v)] ++ mainFields [] rest := by
      rw [← mainFields_append]
      rfl
    rw [hcons, mainFields_append,
      mainFields_single_idem k v (IH (k, v) (List.mem_cons_self _ _)),
      ih (fun kv2 hkv2 => IH kv2 (List.mem_cons_of_mem _ hkv2))]

/-- The sub-property loop is idempotent, given idempotence of the reducer on
every sub-property value. -/
theorem innerFields_idem (fs : List (String × JValue))
    (IH : ∀ kv ∈ fs, filterProperties [] (filterProperties [] kv.2) =
      filterProperties [] kv.2) :
    innerFields (innerFields fs) = innerFields fs := by
  induction fs with
  | nil => simp [innerFields]
  | cons kv rest ih =>
    obtain ⟨k, v⟩ := kv
    have ihr := ih (fun kv2 hkv2 => IH kv2 (List.mem_cons_of_mem _ hkv2))
    by_cases hk : k = "hyperthreading"
    · simp [innerFields, hk, ihr]
    · have hIHv := IH (k, v) (List.mem_cons_self _ _)
      simp [innerFields, hk, hIHv, ihr]

/-- The `properties` scan is idempotent, given idempotence of the reducer on
the values nested two levels down. -/
theorem propsTail_propsTail (fs : List (String × JValue))
    (IH : ∀ kv ∈ fs, ∀ kv2 ∈ objFields kv.2,
      filterProperties [] (filterProperties [] kv2.2) = filterProperties [] kv2.2) :
    propsTail (propsTail fs) = propsTail fs := by
  induction fs with
  | nil => simp [propsTail]
  | cons kv rest ih =>
    obtain ⟨k, v⟩ := kv
    by_cases hk : k = "properties"
    · subst hk
      by_cases hv : v = JValue.null
      · simp [propsTail, hv]
      · have hIHv := IH ("properties", v) (List.mem_cons_self _ _)
        have h1 : propsTail (("properties", v) :: rest) =
            [("properties", JValue.obj (innerFields (objFields v)))] := by
          simp [propsTail, hv]
        rw [h1]
        have h2 : propsTail [("properties", JValue.obj (innerFields (objFields v)))] =
            [("properties", JValue.obj (innerFields (innerFields (objFields v))))] := by
          simp [propsTail, objFields]
        rw [h2, innerFields_idem (objFields v) hIHv]
    · simp only [propsTail, if_neg hk]
      exact ih (fun kv2 hkv2 => IH kv2 (List.mem_cons_of_mem _ hkv2))

/-- Idempotence of the reducer, bounded by value size for the induction. -/
theorem filterProperties_idem_bounded :
    ∀ n : Nat, ∀ v : JValue, sizeOf v ≤ n →
      filterProperties [] (filterProperties [] v) = filterProperties [] v := by
  intro n
  induction n with
  | zero =>
    intro v hv
    exfalso
    cases v <;> simp at hv
  | succ n ih =>
    intro v hv
    cases v with
    | obj fs =>
      have hsz : sizeOf fs + 1 ≤ n + 1 := by
        have : sizeOf (JValue.obj fs) = 1 + sizeOf fs := by simp
        omega
      have hIH : ∀ kv ∈ fs, filterProperties [] (filterProperties [] kv.2) =
          filterProperties [] kv.2 := by
        intro kv hkv
        apply ih
        have h1 : sizeOf kv < sizeOf fs := List.sizeOf_lt_of_mem hkv
        have h2 : sizeOf kv.2 < sizeOf kv := by
          obtain ⟨a, b⟩ := kv
          simp only [Prod.mk.sizeOf_spec]
          omega
        omega
      have hIH2 : ∀ kv ∈ fs, ∀ kv2 ∈ objFields kv.2,
          filterProperties [] (filterProperties [] kv2.2) = filterProperties [] kv2.2 := by
        intro kv hkv kv2 hkv2
        apply ih
        have h1 : sizeOf kv < sizeOf fs := List.sizeOf_lt_of_mem hkv
        have h2 : sizeOf kv2 < sizeOf (objFields kv.2) := List.sizeOf_lt_of_mem hkv2
        have h3 : sizeOf (objFields kv.2) ≤ sizeOf kv.2 := sizeOf_objFields_le kv.2
        have h4 : sizeOf kv.2 < sizeOf kv := by
          obtain ⟨a, b⟩ := kv
          simp only [Prod.mk.sizeOf_spec]
          omega
        have h5 : sizeOf kv2.2 < sizeOf kv2 := by
          obtain ⟨a, b⟩ := kv2
          simp only [Prod.mk.sizeOf_spec]
          omega
        omega
      simp only [filterProperties]
      rw [mainFields_append, propsTail_mainFields_append, mainFields_propsTail,
        mainFields_idem fs hIH, propsTail_propsTail fs hIH2, List.append_nil]
    | null => simp [filterProperties]
    | bool b => simp [filterProperties]
    | num m => simp [filterProperties]
    | str s => simp [filterProperties]
    | arr xs => simp [filterProperties]

/-- C6: applying the schema reducer twice gives the same result as applying
it once: the reducer's output is a fixed point of the reducer. -/
theorem c6_filter_properties_idempotent (schema : JValue) :
    filterProperties [] (filterProperties [] schema) = filterProperties [] schema :=
  filterProperties_idem_bounded (sizeOf schema) schema le_rfl

end K8sCrdMcp
